import Mathlib

/-!
# Verification of the `demcmc` DEM inversion core

Shallow embedding of the `demcmc` package (files `demcmc/dem.py`,
`demcmc/emission.py`, `demcmc/mcmc.py`).  Python floats are modelled as
rationals (`ℚ`); the IEEE special value NaN, which arises from taking the
mean of an empty group, is modelled as `none` in `Option ℚ`; the special
value `-inf` returned by the log-probability guard is a distinguished
constructor of `LogProb`.  Python exceptions are modelled with `Except`,
and mutation of a NumPy array is modelled by explicit state passing.
-/

/-- Decidable equality for `Except`, used to evaluate the embedded
functions on concrete inputs. -/
instance {ε α : Type} [DecidableEq ε] [DecidableEq α] : DecidableEq (Except ε α) :=
  fun x y =>
    match x, y with
    | .ok a, .ok b =>
        if h : a = b then isTrue (by rw [h]) else isFalse (by simp [h])
    | .error e, .error f =>
        if h : e = f then isTrue (by rw [h]) else isFalse (by simp [h])
    | .ok _, .error _ => isFalse (by simp)
    | .error _, .ok _ => isFalse (by simp)

namespace Demcmc

/-- Physical units appearing in the demcmc data model (`astropy.units`).
Only the units exercised by the code and its tests are modelled. -/
inductive UnitT
  | K
  | MK
  | cm
  deriving DecidableEq, Repr

/-- Physical dimensions of the modelled units. -/
inductive Dim
  | temperature
  | length
  deriving DecidableEq, Repr

/-- Dimension of each unit. -/
def dimOf : UnitT → Dim
  | .K => .temperature
  | .MK => .temperature
  | .cm => .length

/-- Conversion factor of a temperature unit to Kelvin
(`Quantity.to_value(u.K)`).  Meaningless for `cm`, which never survives
the dimension checks guarding the conversions the code performs. -/
def toKelvin : UnitT → ℚ
  | .K => 1
  | .MK => 1000000
  | .cm => 1

/-- Errors raised by constructors in `demcmc.dem`:
`astropy.units.UnitsError` from the `@u.quantity_input` decorator, and
`ValueError`. -/
inductive DemError
  | unitsError
  | valueError
  deriving DecidableEq, Repr

/-- `demcmc.dem.TempBins`: a set of temperature bins defined by their
edges.  The constructor stores the edge quantity as given (`_edges`);
`_edges_arr` (the values converted to Kelvin) is the derived
`TempBins.edges_arr` below. -/
structure TempBins where
  edges_vals : List ℚ
  edges_unit : UnitT
  deriving DecidableEq, Repr

/-- `TempBins.__init__`: the `@u.quantity_input(edges=u_temp)` decorator
raises `UnitsError` when `edges` is not temperature-dimensioned;
otherwise the edges are stored as given.  The body performs no further
validation. -/
def TempBins.init (vals : List ℚ) (unit : UnitT) : Except DemError TempBins :=
  if dimOf unit = Dim.temperature then .ok ⟨vals, unit⟩ else .error .unitsError

/-- `TempBins._edges_arr = edges.to_value(u_temp)`: edge values in Kelvin. -/
def TempBins.edges_arr (tb : TempBins) : List ℚ :=
  tb.edges_vals.map (· * toKelvin tb.edges_unit)

/-- `TempBins._bin_widths_arr = np.diff(self._edges_arr)`. -/
def TempBins.bin_widths_arr (tb : TempBins) : List ℚ :=
  (tb.edges_arr.zip tb.edges_arr.tail).map (fun p => p.2 - p.1)

/-- `TempBins.__len__ = edges.size - 1`: the number of bins. -/
def TempBins.len (tb : TempBins) : ℕ :=
  tb.edges_vals.length - 1

/-- `TempBins.bin_centers = (edges[:-1] + edges[1:]) / 2`, in Kelvin. -/
def TempBins.bin_centers_K (tb : TempBins) : List ℚ :=
  (tb.edges_arr.zip tb.edges_arr.tail).map (fun p => (p.1 + p.2) / 2)

/-- `demcmc.emission.ContFuncDiscrete`: a contribution function tabulated
at sample temperatures (`_temps`, a quantity) with sample values
(`_values`, in cm⁵/K, held as bare numbers). -/
structure ContFuncDiscrete where
  temps_vals : List ℚ
  temps_unit : UnitT
  values : List ℚ
  deriving DecidableEq, Repr

/-- Sample temperatures converted to Kelvin (`self.temps.to_value(u.K)`). -/
def ContFuncDiscrete.temps_K (cf : ContFuncDiscrete) : List ℚ :=
  cf.temps_vals.map (· * toKelvin cf.temps_unit)

/-- `u.isclose(t, temps, atol=1 * u.K, rtol=0)` for a single pair, with
both quantities already converted to Kelvin: `|a - b| ≤ 1`. -/
def isCloseK (a b : ℚ) : Bool :=
  decide (|a - b| ≤ 1)

/-- `ContFuncDiscrete._check_bin_edges`: the list `missing_ts` of bin
edges (as stored in `temp_bins.edges`, i.e. in the bin set's own unit)
that are not within 1 K of any sample temperature. -/
def ContFuncDiscrete.missingEdges (cf : ContFuncDiscrete) (tb : TempBins) : List ℚ :=
  tb.edges_vals.filter
    (fun e => ! cf.temps_K.any (fun s => isCloseK (e * toKelvin tb.edges_unit) s))

/-- `pandas.cut(x, edges, include_lowest=True)` membership for one sample:
the index `i` of the interval `(edges[i], edges[i+1]]`, where the lowest
interval additionally contains its lower edge; `none` when the sample
falls in no interval (pandas assigns it NaN and it joins no group). -/
def bucketIdx (edges : List ℚ) (t : ℚ) : Option ℕ :=
  (List.range (edges.length - 1)).find?
    (fun i => decide ((edges.getD i 0 < t ∨ (i = 0 ∧ t = edges.getD 0 0)) ∧
      t ≤ edges.getD (i + 1) 0))

/-- Sample values falling in bucket `j` of the bin set, in sample order
(the group produced by `df.groupby("Groups")` for interval `j`). -/
def bucketValues (cf : ContFuncDiscrete) (tb : TempBins) (j : ℕ) : List ℚ :=
  (cf.temps_K.zip cf.values).filterMap
    (fun tv => if bucketIdx tb.edges_arr tv.1 = some j then some tv.2 else none)

/-- Mean of a group: NaN (`none`) for an empty group, matching
`DataFrame.groupby(...).mean()` on a category with no members. -/
def meanOpt (xs : List ℚ) : Option ℚ :=
  if xs.isEmpty then none else some (xs.sum / (xs.length : ℚ))

/-- `ContFuncDiscrete._binned_arr`: first `_check_bin_edges` (raising
`ValueError` carrying the missing edges), then the per-bin group means
from `pd.cut(..., include_lowest=True)` followed by `groupby(...).mean()`. -/
def ContFuncDiscrete.binned_arr (cf : ContFuncDiscrete) (tb : TempBins) :
    Except (List ℚ) (List (Option ℚ)) :=
  let missing := cf.missingEdges tb
  if missing.isEmpty then
    .ok ((List.range tb.len).map (fun j => meanOpt (bucketValues cf tb j)))
  else
    .error missing

/-! ### NaN-aware float arithmetic

NumPy float arithmetic on possibly-NaN scalars: NaN absorbs every
operation.  `none` models NaN. -/

/-- Addition with NaN propagation. -/
def qnAdd : Option ℚ → Option ℚ → Option ℚ
  | some a, some b => some (a + b)
  | _, _ => none

/-- Multiplication with NaN propagation. -/
def qnMul : Option ℚ → Option ℚ → Option ℚ
  | some a, some b => some (a * b)
  | _, _ => none

/-- Subtraction with NaN propagation. -/
def qnSub : Option ℚ → Option ℚ → Option ℚ
  | some a, some b => some (a - b)
  | _, _ => none

/-- Division with NaN propagation (division by zero is idealised as the
rational convention `a / 0 = 0`; no claim depends on a zero divisor). -/
def qnDiv : Option ℚ → Option ℚ → Option ℚ
  | some a, some b => some (a / b)
  | _, _ => none

/-- Negation with NaN propagation. -/
def qnNeg : Option ℚ → Option ℚ :=
  Option.map (fun a => -a)

/-- Squaring with NaN propagation (`x ** 2`). -/
def qnSq : Option ℚ → Option ℚ :=
  Option.map (fun a => a ^ 2)

/-- `np.sum` over possibly-NaN values: NaN when any entry is NaN. -/
def qnSum (xs : List (Option ℚ)) : Option ℚ :=
  xs.foldr qnAdd (some 0)

/-- `demcmc.emission.EmissionLine`.  The abstract base class `ContFunc`
exposes the single capability `_binned_arr(temp_bins)`, modelled as a
function field; `ContFuncDiscrete.binned_arr` above is the discrete
variant's implementation.  `intensity_obs` and `sigma_intensity_obs` are
`Optional` in the source but must be present (non-`None`) for any line
used in an inversion, which is the situation every claim addresses. -/
structure EmissionLine where
  cont_func_binned_arr : TempBins → Except (List ℚ) (List (Option ℚ))
  intensity_obs : ℚ
  sigma_intensity_obs : ℚ

/-- An emission line whose contribution function is a `ContFuncDiscrete`. -/
def EmissionLine.ofDiscrete (cf : ContFuncDiscrete) (obs sigma : ℚ) : EmissionLine :=
  ⟨cf.binned_arr, obs, sigma⟩

/-- `EmissionLine._I_pred(temp_bins, dem_values)`:
`np.sum(cont_func * dem_values * temp_bins._bin_widths_arr)`. -/
def EmissionLine.I_pred (line : EmissionLine) (tb : TempBins) (dem_values : List ℚ) :
    Except (List ℚ) (Option ℚ) :=
  (line.cont_func_binned_arr tb).map (fun cf =>
    qnSum ((cf.zip (dem_values.zip tb.bin_widths_arr)).map
      (fun p => qnMul (qnMul p.1 (some p.2.1)) (some p.2.2))))

/-- `demcmc.mcmc._log_prob_line`:
`-((line.intensity_obs - intensity_pred) / line.sigma_intensity_obs) ** 2`. -/
def logProbLine (line : EmissionLine) (tb : TempBins) (dem : List ℚ) :
    Except (List ℚ) (Option ℚ) :=
  (line.I_pred tb dem).map (fun p =>
    qnNeg (qnSq (qnDiv (qnSub (some line.intensity_obs) p)
      (some line.sigma_intensity_obs))))

/-- `demcmc.mcmc._log_prob_lines`: `np.sum` of the per-line values. -/
def logProbLines (lines : List EmissionLine) (tb : TempBins) (dem : List ℚ) :
    Except (List ℚ) (Option ℚ) :=
  (lines.mapM (fun l => logProbLine l tb dem)).map qnSum

/-- The value returned by the log-probability functions handed to emcee:
either the float `-inf` (from the non-negativity guard) or an ordinary
float (possibly NaN). -/
inductive LogProb
  | neginf
  | val (x : Option ℚ)
  deriving DecidableEq, Repr

/-- `demcmc.mcmc._log_prob`: `-inf` when any component of the guess is
negative (checked before any line is evaluated), otherwise the summed
per-line log probabilities. -/
def logProb (dem_guess : List ℚ) (tb : TempBins) (lines : List EmissionLine) :
    Except (List ℚ) LogProb :=
  if dem_guess.any (fun x => decide (x < 0)) then .ok .neginf
  else (logProbLines lines tb dem_guess).map .val

/-- `demcmc.mcmc._log_prob_single_variation`: writes `dem_val` into
component `idx_varied` of the `dem_guess` array it receives and then
evaluates `_log_prob` on it.  The in-place NumPy assignment is modelled
by returning the post-call state of the array alongside the result. -/
def logProbSingleVariation (dem_val : ℚ) (idx_varied : ℕ) (dem_guess : List ℚ)
    (tb : TempBins) (lines : List EmissionLine) :
    Except (List ℚ) LogProb × List ℚ :=
  let g := dem_guess.set idx_varied dem_val
  (logProb g tb lines, g)

/-- `demcmc.mcmc._log_prob` performs no assignment to any of its
arguments, so its state-passing form returns the guess array unchanged. -/
def logProbStateful (dem_guess : List ℚ) (tb : TempBins) (lines : List EmissionLine) :
    Except (List ℚ) LogProb × List ℚ :=
  (logProb dem_guess tb lines, dem_guess)

/-! ### The external ensemble sampler and the staged driver -/

/-- A NumPy array of one or two dimensions, as handed to
`EnsembleSampler.run_mcmc` as the initial state. -/
inductive NDArr
  | one (xs : List ℚ)
  | two (m : List (List ℚ))
  deriving DecidableEq, Repr

/-- `np.atleast_2d`: a 1-D array of length n becomes a single-row
(1, n) array; a 2-D array is unchanged. -/
def atleast2d : NDArr → List (List ℚ)
  | .one xs => [xs]
  | .two m => m

/-- Shape of a (rectangular) 2-D array. -/
def shapeOf (m : List (List ℚ)) : ℕ × ℕ :=
  (m.length, (m.headD []).length)

/-- Failure of the external sampler capability. -/
inductive SamplerError
  | incompatibleDims
  deriving DecidableEq, Repr

/-- The external ensemble-sampler capability (emcee, out of scope of the
repository): `run_mcmc(initial_positions[n_walkers, n_dims], n_steps)`
interprets the initial state with `np.atleast_2d` and raises
`ValueError("incompatible input dimensions")` unless its shape is
exactly `(nwalkers, ndim)`.  Only this shape contract of the interface
is modelled; the chain itself is irrelevant to the claims. -/
def runMcmc (nwalkers ndim : ℕ) (initial_state : NDArr) (_nsteps : ℕ) :
    Except SamplerError Unit :=
  if shapeOf (atleast2d initial_state) = (nwalkers, ndim) then .ok ()
  else .error .incompatibleDims

/-- `predict_dem_emcee`, phase 2 (joint sampling): `nwalkers = 2*n_dem + 1`
walkers, and `sampler.run_mcmc(dem_guess, nsteps * n_dem)` where
`dem_guess` is the 1-D array of length `n_dem` produced (in place) by
`_vary_values_independently` — the code passes it directly, without
replicating it per walker or perturbing it. -/
def predictDemPhase2 (n_dem : ℕ) (dem_guess : List ℚ) (nsteps : ℕ) :
    Except SamplerError Unit :=
  let nwalkers := 2 * n_dem + 1
  runMcmc nwalkers n_dem (NDArr.one dem_guess) (nsteps * n_dem)

/-- The initial state `predict_dem_emcee` hands the joint sampler: the
phase-1 guess array itself (1-D, length `n_dem`). -/
def phase2InitialState (dem_guess : List ℚ) : NDArr :=
  NDArr.one dem_guess

/-! ### DEM output container and persistence -/

/-- An `emcee.EnsembleSampler` after a run, reduced to the data the
container consumes: `get_chain()`, indexed `[step][walker][dim]`. -/
structure Sampler where
  chain : List (List (List ℚ))
  deriving DecidableEq, Repr

/-- `demcmc.dem.DEMOutput`.  The class body only *annotates* the
attributes `_sampler`, `_temp_bins` and `_samples`; an attribute exists
on an instance only once some method assigns it.  A present attribute is
`some`, an absent one is `none` (reading it raises `AttributeError`). -/
structure DEMOutput where
  sampler_attr : Option Sampler
  temp_bins_attr : Option TempBins
  samples_attr : Option (List (List ℚ))
  deriving DecidableEq, Repr

/-- Reading a missing Python attribute raises `AttributeError`. -/
inductive AttrError
  | attributeError
  deriving DecidableEq, Repr

/-- The `DEMOutput.sampler` property: returns `self._sampler`, raising
`AttributeError` when the attribute was never assigned. -/
def DEMOutput.sampler (d : DEMOutput) : Except AttrError Sampler :=
  match d.sampler_attr with
  | some s => .ok s
  | none => .error .attributeError

/-- The `DEMOutput.temp_bins` property. -/
def DEMOutput.temp_bins (d : DEMOutput) : Except AttrError TempBins :=
  match d.temp_bins_attr with
  | some tb => .ok tb
  | none => .error .attributeError

/-- The `DEMOutput.samples` property. -/
def DEMOutput.samples (d : DEMOutput) : Except AttrError (List (List ℚ)) :=
  match d.samples_attr with
  | some s => .ok s
  | none => .error .attributeError

/-- `DEMOutput._from_sampler`: stores the sampler, the bins, and
`get_chain()[-1, :, :]` (the last step across walkers) as samples. -/
def DEMOutput.from_sampler (s : Sampler) (tb : TempBins) : DEMOutput :=
  { sampler_attr := some s
    temp_bins_attr := some tb
    samples_attr := some (s.chain.getLastD []) }

/-- The netCDF file written by `DEMOutput.save`: the sample data, the
"Temp bin center" coordinate (bin centers in Kelvin, `u_temp`), and the
"Temp bin edges" attribute (edges in Kelvin). -/
structure SavedDA where
  data : List (List ℚ)
  coord_centers : List ℚ
  attr_edges : List ℚ
  deriving DecidableEq, Repr

/-- `DEMOutput.save`: writes `self.samples` as the data,
`self.temp_bins.bin_centers.to_value(u_temp)` as the coordinate and
`self.temp_bins.edges.to_value(u_temp)` as the edge attribute.  It goes
through the properties, so it raises `AttributeError` when the output
was never populated. -/
def DEMOutput.save (d : DEMOutput) : Except AttrError SavedDA := do
  let tb ← d.temp_bins
  let s ← d.samples
  return ⟨s, tb.bin_centers_K, tb.edges_arr⟩

/-- `DEMOutput.load`: builds a fresh instance, assigning
`_temp_bins = TempBins(attrs["Temp bin edges"] * u_temp)` (the stored
Kelvin values with unit `u_temp = K`, accepted by `TempBins.init`) and
`_samples = da.data * u_dem`.  No assignment to `_sampler` is made. -/
def DEMOutput.load (f : SavedDA) : DEMOutput :=
  { sampler_attr := none
    temp_bins_attr := some ⟨f.attr_edges, UnitT.K⟩
    samples_attr := some f.data }

/-! ### Concrete instances from the repository's tests -/

/-- The discrete contribution function of `test_emission.py`: samples at
`[1, 2, 3, 4, 5] MK` with values `[0.1, 0.3, 0.5, 0.7, 0.5]`. -/
def cfSample : ContFuncDiscrete :=
  ⟨[1, 2, 3, 4, 5], UnitT.MK, [1/10, 3/10, 1/2, 7/10, 1/2]⟩

/-- The bin set `[1, 3, 5] MK` of `test_binned`. -/
def tbSample : TempBins := ⟨[1, 3, 5], UnitT.MK⟩

/-- The bin set `[0, 1, 3, 4] MK` of `test_binned_error`. -/
def tbMissing : TempBins := ⟨[0, 1, 3, 4], UnitT.MK⟩

/-- A small two-bin set in Kelvin. -/
def tbK12 : TempBins := ⟨[1, 2], UnitT.K⟩

/-- An emission line over `cfSample` with observed intensity 7 ± 2. -/
def lineSample : EmissionLine := EmissionLine.ofDiscrete cfSample 7 2

/-- A populated inversion output (one walker, two bins, bins in MK). -/
def demOutSample : DEMOutput := ⟨none, some ⟨[1, 3], UnitT.MK⟩, some [[5, 6]]⟩

/-- The file `demOutSample.save` writes. -/
def savedSample : SavedDA := ⟨[[5, 6]], [2000000], [1000000, 3000000]⟩

/-! ## Theorems -/

/-- Summation with NaN propagation over an elementwise triple product
whose first factor list is NaN-free reduces to an ordinary rational
sum. -/
theorem qnSum_cons (x : Option ℚ) (l : List (Option ℚ)) :
    qnSum (x :: l) = qnAdd x (qnSum l) := rfl

theorem qnSum_zip_prod (carr dem w : List ℚ) :
    qnSum (((carr.map some).zip (dem.zip w)).map
      (fun p => qnMul (qnMul p.1 (some p.2.1)) (some p.2.2))) =
    some (((carr.zip (dem.zip w)).map (fun p => p.1 * p.2.1 * p.2.2)).sum) := by
  induction carr generalizing dem w with
  | nil => rfl
  | cons c cs ih =>
    cases dem with
    | nil => rfl
    | cons d ds =>
      cases w with
      | nil => rfl
      | cons w0 ws =>
        simp only [List.map_cons, List.zip_cons_cons, List.sum_cons]
        rw [qnSum_cons, ih ds ws]
        rfl

/-- The sum of the elementwise triple products of three equally long
lists, as an indexed sum over the bin indices. -/
theorem zip_prod_sum_eq (xs ys zs : List ℚ) (hxy : ys.length = xs.length)
    (hxz : zs.length = xs.length) :
    ((xs.zip (ys.zip zs)).map (fun p => p.1 * p.2.1 * p.2.2)).sum =
    ∑ i ∈ Finset.range xs.length, xs.getD i 0 * ys.getD i 0 * zs.getD i 0 := by
  induction xs generalizing ys zs with
  | nil => simp
  | cons x xs ih =>
    cases ys with
    | nil => simp at hxy
    | cons y ys =>
      cases zs with
      | nil => simp at hxz
      | cons z zs =>
        simp only [List.length_cons] at hxy hxz
        simp only [List.zip_cons_cons, List.map_cons, List.sum_cons, List.length_cons]
        rw [Finset.sum_range_succ']
        simp only [List.getD_cons_succ, List.getD_cons_zero]
        rw [ih ys zs (by omega) (by omega), add_comm]

/-- There are as many bin widths as bins. -/
theorem bin_widths_arr_length (tb : TempBins) :
    tb.bin_widths_arr.length = tb.len := by
  unfold TempBins.bin_widths_arr TempBins.len TempBins.edges_arr
  simp [List.length_zip]

/-- In a strictly sorted list, values at `getD`-indices within range are
monotone. -/
theorem sorted_getD_mono (edges : List ℚ) (hs : List.Sorted (· < ·) edges)
    {a b : ℕ} (hab : a ≤ b) (hb : b < edges.length) :
    edges.getD a 0 ≤ edges.getD b 0 := by
  rcases eq_or_lt_of_le hab with h | h
  · rw [h]
  · have ha : a < edges.length := lt_trans h hb
    rw [List.getD_eq_getElem edges 0 ha, List.getD_eq_getElem edges 0 hb]
    exact le_of_lt (List.pairwise_iff_get.mp hs ⟨a, ha⟩ ⟨b, hb⟩ h)

/-- Two distinct bins of a sorted edge list cannot both contain a point:
if `i < j`, `t` lies below the top of bin `i`, and `t` lies strictly
above the bottom of bin `j`, the edges would be out of order. -/
theorem bucket_no_overlap (edges : List ℚ) (hs : List.Sorted (· < ·) edges) (t : ℚ)
    {i j : ℕ} (hij : i < j) (hj : j < edges.length - 1)
    (hi_le : t ≤ edges.getD (i + 1) 0) (hj_lt : edges.getD j 0 < t) : False := by
  have h1 : edges.getD (i + 1) 0 ≤ edges.getD j 0 :=
    sorted_getD_mono edges hs (by omega) (by omega)
  linarith

/-- Characterization of `pd.cut` bucket membership over sorted edges:
sample `t` lands in bucket `j` exactly when `t` lies in the half-open
interval `(edges[j], edges[j+1]]`, the lowest bucket additionally
containing its lower edge. -/
theorem bucketIdx_eq_some_iff (edges : List ℚ) (hs : List.Sorted (· < ·) edges)
    (t : ℚ) (j : ℕ) :
    bucketIdx edges t = some j ↔
      j < edges.length - 1 ∧
      (edges.getD j 0 < t ∨ (j = 0 ∧ t = edges.getD 0 0)) ∧
      t ≤ edges.getD (j + 1) 0 := by
  unfold bucketIdx
  constructor
  · intro h
    have hmem := List.mem_of_find?_eq_some h
    have hp := List.find?_some h
    rw [List.mem_range] at hmem
    rw [decide_eq_true_eq] at hp
    exact ⟨hmem, hp.1, hp.2⟩
  · rintro ⟨hj, hdisj, hle⟩
    cases hfind : (List.range (edges.length - 1)).find?
        (fun i => decide ((edges.getD i 0 < t ∨ (i = 0 ∧ t = edges.getD 0 0)) ∧
          t ≤ edges.getD (i + 1) 0)) with
    | none =>
      exfalso
      have hnone := List.find?_eq_none.mp hfind j (List.mem_range.mpr hj)
      simp only [decide_eq_true_eq] at hnone
      exact hnone ⟨hdisj, hle⟩
    | some i =>
      have hmem := List.mem_of_find?_eq_some hfind
      have hpi := List.find?_some hfind
      rw [List.mem_range] at hmem
      rw [decide_eq_true_eq] at hpi
      have hij : i = j := by
        rcases lt_trichotomy i j with h | h | h
        · exfalso
          rcases hdisj with hlt | ⟨hj0, _⟩
          · exact bucket_no_overlap edges hs t h hj hpi.2 hlt
          · omega
        · exact h
        · exfalso
          rcases hpi.1 with hlt | ⟨hi0, _⟩
          · exact bucket_no_overlap edges hs t h hmem hle hlt
          · omega
      rw [hij]

/-- `getD` on a mapped index range evaluates the function. -/
theorem getD_map_range {α : Type} (f : ℕ → α) (n j : ℕ) (hj : j < n) (d : α) :
    ((List.range n).map f).getD j d = f j := by
  rw [List.getD_eq_getElem _ d (by simp [hj])]
  simp

/-- The Kelvin edge array has as many entries as the stored edges. -/
theorem edges_arr_length (tb : TempBins) :
    tb.edges_arr.length = tb.edges_vals.length := by
  simp [TempBins.edges_arr]

/-- **C2.** For every emission line whose contribution function bins to
NaN-free values `carr` and every DEM guess over the same bins, the
predicted intensity is `Σ_i carr[i] * dem[i] * widths[i]` and the
per-line log-probability is minus the squared standardized residual;
for the all-zero DEM the predicted intensity is `0` and the
log-probability is `-(intensity_obs / sigma)²`. -/
theorem c2_predicted_intensity (line : EmissionLine) (tb : TempBins) (dem carr : List ℚ)
    (hbin : line.cont_func_binned_arr tb = .ok (carr.map some))
    (hc : carr.length = tb.len) (hd : dem.length = tb.len) :
    line.I_pred tb dem = .ok (some (∑ i ∈ Finset.range tb.len,
      carr.getD i 0 * dem.getD i 0 * tb.bin_widths_arr.getD i 0)) ∧
    logProbLine line tb dem = .ok (some (-(((line.intensity_obs -
      ∑ i ∈ Finset.range tb.len,
        carr.getD i 0 * dem.getD i 0 * tb.bin_widths_arr.getD i 0) /
      line.sigma_intensity_obs) ^ 2))) ∧
    (dem = List.replicate tb.len 0 →
      line.I_pred tb dem = .ok (some 0) ∧
      logProbLine line tb dem =
        .ok (some (-((line.intensity_obs / line.sigma_intensity_obs) ^ 2)))) := by
  have hw : tb.bin_widths_arr.length = tb.len := bin_widths_arr_length tb
  have hIpred : line.I_pred tb dem = .ok (some (∑ i ∈ Finset.range tb.len,
      carr.getD i 0 * dem.getD i 0 * tb.bin_widths_arr.getD i 0)) := by
    unfold EmissionLine.I_pred
    rw [hbin]
    show Except.ok (qnSum (((carr.map some).zip (dem.zip tb.bin_widths_arr)).map
      (fun p => qnMul (qnMul p.1 (some p.2.1)) (some p.2.2)))) = _
    rw [qnSum_zip_prod carr dem tb.bin_widths_arr,
      zip_prod_sum_eq carr dem tb.bin_widths_arr (by omega) (by omega), hc]
  refine ⟨hIpred, ?_, ?_⟩
  · unfold logProbLine
    rw [hIpred]
    rfl
  · intro hdem
    have hzero : (∑ i ∈ Finset.range tb.len,
        carr.getD i 0 * dem.getD i 0 * tb.bin_widths_arr.getD i 0) = 0 := by
      refine Finset.sum_eq_zero (fun i _ => ?_)
      rw [hdem]
      simp [List.getD_eq_getElem?_getD]
    constructor
    · rw [hIpred, hzero]
    · unfold logProbLine
      rw [hIpred, hzero]
      show Except.ok _ = _
      norm_num [qnNeg, qnSq, qnDiv, qnSub]

/-- Witness for C2: the sample line over `cfSample` observed at `7 ± 2`,
binned on `[1, 3, 5] MK`, evaluated at the all-zero DEM. -/
theorem c2_predicted_intensity_witness :
    lineSample.I_pred tbSample [0, 0] = .ok (some 0) ∧
    logProbLine lineSample tbSample [0, 0] = .ok (some (-(49/4))) := by
  have hbin : lineSample.cont_func_binned_arr tbSample = .ok ([3/10, 3/5].map some) := by
    show cfSample.binned_arr tbSample = _
    norm_num [ContFuncDiscrete.binned_arr, ContFuncDiscrete.missingEdges,
      ContFuncDiscrete.temps_K, isCloseK, bucketValues, bucketIdx, meanOpt,
      TempBins.edges_arr, TempBins.len, toKelvin, cfSample, tbSample,
      List.filter, List.range, List.range.loop, List.find?, List.filterMap, List.zip,
      List.zipWith, List.isEmpty, qnSum, qnAdd, List.any]
  have h := (c2_predicted_intensity lineSample tbSample [0, 0] [3/10, 3/5]
    hbin rfl rfl).2.2 rfl
  refine ⟨h.1, ?_⟩
  rw [h.2]
  norm_num [lineSample, EmissionLine.ofDiscrete]

/-- **C3.** Successful binning of a discrete contribution function
produces one value per bin: the mean of the sample values whose
temperatures lie in the bin's half-open interval (the lowest bin also
containing its lower edge); concretely, samples at `[1,2,3,4,5] MK` with
values `[0.1,0.3,0.5,0.7,0.5]` binned against `[1,3,5] MK` yield
`[0.3, 0.6]`. -/
theorem c3_discrete_binning (cf : ContFuncDiscrete) (tb : TempBins)
    (arr : List (Option ℚ)) (hs : List.Sorted (· < ·) tb.edges_arr)
    (hok : cf.binned_arr tb = .ok arr) :
    (arr.length = tb.len ∧
     ∀ j, j < tb.len → arr.getD j none =
       meanOpt ((cf.temps_K.zip cf.values).filterMap (fun tv =>
         if (tb.edges_arr.getD j 0 < tv.1 ∨ (j = 0 ∧ tv.1 = tb.edges_arr.getD 0 0)) ∧
             tv.1 ≤ tb.edges_arr.getD (j + 1) 0
         then some tv.2 else none))) ∧
    cfSample.binned_arr tbSample = .ok [some (3/10), some (3/5)] := by
  have harr : arr = (List.range tb.len).map (fun j => meanOpt (bucketValues cf tb j)) := by
    simp only [ContFuncDiscrete.binned_arr] at hok
    by_cases hm : (cf.missingEdges tb).isEmpty = true
    · rw [if_pos hm] at hok
      exact (Except.ok.inj hok).symm
    · rw [if_neg hm] at hok
      exact absurd hok (by simp)
  refine ⟨⟨?_, ?_⟩, ?_⟩
  · rw [harr]
    simp
  · intro j hj
    rw [harr, getD_map_range _ _ _ hj]
    congr 1
    unfold bucketValues
    refine List.filterMap_congr (fun tv _ => ?_)
    have hiff : (bucketIdx tb.edges_arr tv.1 = some j) ↔
        ((tb.edges_arr.getD j 0 < tv.1 ∨ (j = 0 ∧ tv.1 = tb.edges_arr.getD 0 0)) ∧
          tv.1 ≤ tb.edges_arr.getD (j + 1) 0) := by
      rw [bucketIdx_eq_some_iff tb.edges_arr hs tv.1 j]
      constructor
      · exact fun h => h.2
      · intro h
        refine ⟨?_, h⟩
        rw [edges_arr_length]
        unfold TempBins.len at hj
        exact hj
    exact if_congr hiff rfl rfl
  · norm_num [ContFuncDiscrete.binned_arr, ContFuncDiscrete.missingEdges,
      ContFuncDiscrete.temps_K, isCloseK, bucketValues, bucketIdx, meanOpt,
      TempBins.edges_arr, TempBins.len, toKelvin, cfSample, tbSample,
      List.filter, List.range, List.range.loop, List.find?, List.filterMap, List.zip,
      List.zipWith, List.isEmpty, qnSum, qnAdd, List.any]

/-- Witness for C3: the test's concrete contribution function and bins. -/
theorem c3_discrete_binning_witness :
    ([some (3/10), some (3/5)] : List (Option ℚ)).length = tbSample.len ∧
    cfSample.binned_arr tbSample = .ok [some (3/10), some (3/5)] := by
  have hs : List.Sorted (· < ·) tbSample.edges_arr := by
    norm_num [TempBins.edges_arr, tbSample, toKelvin, List.sorted_cons]
  have hok : cfSample.binned_arr tbSample = .ok [some (3/10), some (3/5)] := by
    norm_num [ContFuncDiscrete.binned_arr, ContFuncDiscrete.missingEdges,
      ContFuncDiscrete.temps_K, isCloseK, bucketValues, bucketIdx, meanOpt,
      TempBins.edges_arr, TempBins.len, toKelvin, cfSample, tbSample,
      List.filter, List.range, List.range.loop, List.find?, List.filterMap, List.zip,
      List.zipWith, List.isEmpty, qnSum, qnAdd, List.any]
  exact ⟨(c3_discrete_binning cfSample tbSample _ hs hok).1.1,
    (c3_discrete_binning cfSample tbSample _ hs hok).2⟩

/-- **C4.** Binning a discrete contribution function fails if and only
if some bin edge lies farther than 1 K (the fixed absolute tolerance)
from every sample temperature; the raised error enumerates exactly the
offending edges (in edge order, in the bin set's own unit), and no
silent approximation occurs.  Concretely, binning `cfSample` against
`[0, 1, 3, 4] MK` fails naming the absent edge `0`. -/
theorem c4_missing_edge_error (cf : ContFuncDiscrete) (tb : TempBins) :
    ((∃ l, cf.binned_arr tb = .error l) ↔
      ∃ e ∈ tb.edges_vals, ∀ s ∈ cf.temps_K, 1 < |e * toKelvin tb.edges_unit - s|) ∧
    (∀ l, cf.binned_arr tb = .error l →
      l = tb.edges_vals.filter (fun e =>
        decide (∀ s ∈ cf.temps_K, 1 < |e * toKelvin tb.edges_unit - s|))) ∧
    cfSample.binned_arr tbMissing = .error [0] := by
  have hfil : cf.missingEdges tb = tb.edges_vals.filter (fun e =>
      decide (∀ s ∈ cf.temps_K, 1 < |e * toKelvin tb.edges_unit - s|)) := by
    unfold ContFuncDiscrete.missingEdges
    refine List.filter_congr (fun e _ => ?_)
    rw [Bool.eq_iff_iff]
    simp [isCloseK, List.any_eq_true, not_le]
  have herr : ∀ l, cf.binned_arr tb = .error l → l = cf.missingEdges tb := by
    intro l hl
    simp only [ContFuncDiscrete.binned_arr] at hl
    by_cases hm : (cf.missingEdges tb).isEmpty = true
    · rw [if_pos hm] at hl
      exact absurd hl (by simp)
    · rw [if_neg hm] at hl
      exact (Except.error.inj hl).symm
  refine ⟨⟨?_, ?_⟩, ?_, ?_⟩
  · rintro ⟨l, hl⟩
    have hlm := herr l hl
    have hne : cf.missingEdges tb ≠ [] := by
      intro hnil
      simp only [ContFuncDiscrete.binned_arr] at hl
      rw [if_pos (by simp [hnil])] at hl
      exact absurd hl (by simp)
    obtain ⟨e, he⟩ := List.exists_mem_of_ne_nil _ hne
    rw [hfil] at he
    have := List.mem_filter.mp he
    exact ⟨e, this.1, by simpa using this.2⟩
  · rintro ⟨e, he, hfar⟩
    have hmem : e ∈ cf.missingEdges tb := by
      rw [hfil]
      exact List.mem_filter.mpr ⟨he, by simpa using hfar⟩
    have hne : (cf.missingEdges tb).isEmpty ≠ true := by
      simp [List.isEmpty_iff]
      exact List.ne_nil_of_mem hmem
    refine ⟨cf.missingEdges tb, ?_⟩
    simp only [ContFuncDiscrete.binned_arr]
    rw [if_neg hne]
  · intro l hl
    rw [herr l hl, hfil]
  · norm_num [ContFuncDiscrete.binned_arr, ContFuncDiscrete.missingEdges,
      ContFuncDiscrete.temps_K, isCloseK, bucketValues, bucketIdx, meanOpt,
      TempBins.edges_arr, TempBins.len, toKelvin, cfSample, tbMissing,
      List.filter, List.range, List.range.loop, List.find?, List.filterMap, List.zip,
      List.zipWith, List.isEmpty, qnSum, qnAdd, List.any]

/-- Witness for C4: the failing bin set of `test_binned_error` — edge
`0 MK` is more than 1 K from every sample temperature, so binning
errors, naming exactly `[0]`. -/
theorem c4_missing_edge_error_witness :
    (∃ l, cfSample.binned_arr tbMissing = .error l) ∧
    ([0] : List ℚ) = tbMissing.edges_vals.filter (fun e =>
      decide (∀ s ∈ cfSample.temps_K, 1 < |e * toKelvin tbMissing.edges_unit - s|)) := by
  constructor
  · exact ⟨[0], (c4_missing_edge_error cfSample tbMissing).2.2⟩
  · exact (c4_missing_edge_error cfSample tbMissing).2.1 [0]
      (c4_missing_edge_error cfSample tbMissing).2.2

/-- **C1.** For every DEM guess with a negative component, `_log_prob`
returns (rather than raises) `-inf`, whatever the lines are — in
particular even for lines whose contribution function could not be
binned; for every elementwise non-negative guess it returns the sum of
the per-line log-probabilities. -/
theorem c1_log_prob_total (dem : List ℚ) (tb : TempBins) (lines : List EmissionLine) :
    ((∃ x ∈ dem, x < 0) → logProb dem tb lines = .ok .neginf) ∧
    ((∀ x ∈ dem, 0 ≤ x) → ∀ ps : List (Option ℚ),
      lines.mapM (fun l => logProbLine l tb dem) = .ok ps →
      logProb dem tb lines = .ok (.val (qnSum ps))) := by
  constructor
  · rintro ⟨x, hx, hneg⟩
    have hc : (dem.any fun x => decide (x < 0)) = true := by
      simp only [List.any_eq_true, decide_eq_true_eq]
      exact ⟨x, hx, hneg⟩
    simp [logProb, hc]
  · intro h ps hps
    have hc : (dem.any fun x => decide (x < 0)) = false := by
      simp only [List.any_eq_false, decide_eq_true_eq]
      intro x hx
      exact not_lt.mpr (h x hx)
    unfold logProb
    rw [hc]
    simp only [Bool.false_eq_true, if_false]
    unfold logProbLines
    rw [hps]
    rfl

/-- Witness for C1 at concrete inputs. -/
theorem c1_log_prob_total_witness :
    logProb [-1, 5] tbK12 [] = .ok .neginf ∧
    logProb [1, 2] tbK12 [] = .ok (.val (some 0)) := by
  constructor
  · exact (c1_log_prob_total [-1, 5] tbK12 []).1
      ⟨-1, by simp, by norm_num⟩
  · exact (c1_log_prob_total [1, 2] tbK12 []).2
      (by intro x hx; simp at hx; rcases hx with h | h <;> simp [h]) [] rfl

/-- **C5 (counterexample).** `TempBins.__init__` performs no `ValueError`
validation: a non-increasing edge sequence and a one-element edge
sequence (both temperature-dimensioned) are accepted, contradicting the
claim that construction fails for them. -/
theorem c5_temp_bins_init_counterexample :
    TempBins.init [2, 1] UnitT.K = .ok ⟨[2, 1], UnitT.K⟩ ∧
    TempBins.init [1] UnitT.K = .ok ⟨[1], UnitT.K⟩ := by
  constructor <;> rfl

/-- **C5 (amended).** Constructing a `TempBins` fails (with a units
error, from `@u.quantity_input`) exactly when the edge values are not
temperature-dimensioned; for temperature-dimensioned edges construction
always succeeds with the edges stored as given — no length or
monotonicity validation is performed and no `ValueError` is ever
raised. -/
theorem c5_temp_bins_init (vals : List ℚ) (unit : UnitT) :
    (dimOf unit ≠ Dim.temperature → TempBins.init vals unit = .error .unitsError) ∧
    (dimOf unit = Dim.temperature → TempBins.init vals unit = .ok ⟨vals, unit⟩) := by
  constructor
  · intro h
    simp [TempBins.init, h]
  · intro h
    simp [TempBins.init, h]

/-- Witness for C5 at concrete inputs: length-dimensioned edges are
rejected, temperature-dimensioned edges are accepted. -/
theorem c5_temp_bins_init_witness :
    TempBins.init [1, 2] UnitT.cm = .error .unitsError ∧
    TempBins.init [1, 2, 4] UnitT.K = .ok ⟨[1, 2, 4], UnitT.K⟩ := by
  exact ⟨(c5_temp_bins_init [1, 2] UnitT.cm).1 (by simp [dimOf]),
    (c5_temp_bins_init [1, 2, 4] UnitT.K).2 rfl⟩

/-- **C10.** A `DEMOutput` obtained via `load` has `temp_bins` and
`samples` populated but no `_sampler` attribute, so reading the
`sampler` property raises `AttributeError`; an output produced by
`_from_sampler` exposes the sampler handle. -/
theorem c10_load_has_no_sampler (f : SavedDA) (s : Sampler) (tb : TempBins) :
    (DEMOutput.load f).sampler = .error .attributeError ∧
    (DEMOutput.load f).temp_bins = .ok ⟨f.attr_edges, UnitT.K⟩ ∧
    (DEMOutput.load f).samples = .ok f.data ∧
    (DEMOutput.from_sampler s tb).sampler = .ok s := by
  exact ⟨rfl, rfl, rfl, rfl⟩

/-- **C6 (code bug).** Phase 2 creates the joint sampler with `2*N + 1`
walkers, but the initial state it hands `run_mcmc` is the bare 1-D
phase-1 guess array: under `np.atleast_2d` it is a single row — not
`2N+1` perturbed copies of the guess — and the sampler rejects it as
dimensionally incompatible, for every guess vector. -/
theorem c6_phase2_initial_walkers (n_dem nsteps : ℕ) (g : List ℚ) (h : 1 ≤ n_dem) :
    atleast2d (phase2InitialState g) = [g] ∧
    (shapeOf (atleast2d (phase2InitialState g))).1 = 1 ∧
    predictDemPhase2 n_dem g nsteps = .error .incompatibleDims := by
  refine ⟨rfl, rfl, ?_⟩
  unfold predictDemPhase2 runMcmc
  rw [if_neg]
  intro hcontra
  have h1 : (1 : ℕ) = 2 * n_dem + 1 := congrArg Prod.fst hcontra
  omega

/-- Witness for C6 at two temperature bins. -/
theorem c6_phase2_initial_walkers_witness :
    atleast2d (phase2InitialState [1, 2]) = [[1, 2]] ∧
    predictDemPhase2 2 [1, 2] 1 = .error .incompatibleDims := by
  exact ⟨(c6_phase2_initial_walkers 2 1 [1, 2] (by norm_num)).1,
    (c6_phase2_initial_walkers 2 1 [1, 2] (by norm_num)).2.2⟩

/-- **C7 (code bug).** For every non-degenerate bin count the staged
driver's joint run raises instead of completing: the phase-1 guess is a
1-D array of length `N`, and `run_mcmc` on a `(2N+1)`-walker sampler
rejects it.  `_from_sampler` itself would indeed package the final step
across all walkers (`get_chain()[-1, :, :]`), but that point is never
reached. -/
theorem c7_predict_dem_joint_run (n_dem nsteps : ℕ) (g : List ℚ) (s : Sampler)
    (tb : TempBins) (h : 1 ≤ n_dem) (hg : g.length = n_dem) :
    predictDemPhase2 n_dem g nsteps = .error .incompatibleDims ∧
    (DEMOutput.from_sampler s tb).samples = .ok (s.chain.getLastD []) := by
  refine ⟨?_, rfl⟩
  unfold predictDemPhase2 runMcmc
  rw [if_neg]
  intro hcontra
  have h1 : (1 : ℕ) = 2 * n_dem + 1 := congrArg Prod.fst hcontra
  omega

/-- Witness for C7 at one temperature bin. -/
theorem c7_predict_dem_joint_run_witness :
    predictDemPhase2 1 [3] 1 = .error .incompatibleDims ∧
    (DEMOutput.from_sampler ⟨[[[4]]]⟩ tbK12).samples = .ok [[4]] := by
  exact ⟨(c7_predict_dem_joint_run 1 1 [3] ⟨[[[4]]]⟩ tbK12 (by norm_num) rfl).1,
    (c7_predict_dem_joint_run 1 1 [3] ⟨[[[4]]]⟩ tbK12 (by norm_num) rfl).2⟩

/-- **C9 (counterexample).** `_log_prob_single_variation` does *not*
leave the DEM guess array it receives unchanged: evaluating it at
proposal value 5 on index 0 of the array `[1, 2]` leaves the array as
`[5, 2]`. -/
theorem c9_single_variation_mutates :
    (logProbSingleVariation 5 0 [1, 2] tbK12 []).2 ≠ [1, 2] := by
  have h2 : (logProbSingleVariation 5 0 [1, 2] tbK12 []).2 = [5, 2] := rfl
  rw [h2]
  intro h
  simp only [List.cons.injEq] at h
  norm_num at h

/-- **C9 (amended).** The joint log-probability function `_log_prob` is
pure: it leaves the guess array (and every other input) unchanged and is
a function of its inputs.  The phase-1 function
`_log_prob_single_variation` leaves the lines and bins unchanged and is
deterministic, but it mutates the guess array it receives: it overwrites
exactly the varied component with the proposed value, preserving the
array's length and every other component. -/
theorem c9_log_prob_effects (v : ℚ) (i : ℕ) (g : List ℚ) (tb : TempBins)
    (lines : List EmissionLine) :
    (logProbStateful g tb lines).2 = g ∧
    (logProbStateful g tb lines).1 = logProb g tb lines ∧
    (logProbSingleVariation v i g tb lines).2 = g.set i v ∧
    (logProbSingleVariation v i g tb lines).2.length = g.length ∧
    (∀ j, j ≠ i → (logProbSingleVariation v i g tb lines).2[j]? = g[j]?) ∧
    (logProbSingleVariation v i g tb lines).1 = logProb (g.set i v) tb lines := by
  refine ⟨rfl, rfl, rfl, List.length_set g i v, ?_, rfl⟩
  intro j hj
  exact List.getElem?_set_ne (fun hij => hj hij.symm)

/-- **C8.** Round trip through the persisted array format: saving a
populated inversion result and reloading it reproduces the sample
values exactly and a bin set whose edge values in Kelvin — and hence
bin widths and centers — are exactly those of the original. -/
theorem c8_save_load_round_trip (d : DEMOutput) (tb : TempBins) (s : List (List ℚ))
    (f : SavedDA) (htb : d.temp_bins_attr = some tb) (hs : d.samples_attr = some s)
    (hf : d.save = .ok f) :
    (DEMOutput.load f).samples = .ok s ∧
    ∃ tb' : TempBins, (DEMOutput.load f).temp_bins = .ok tb' ∧
      tb'.edges_arr = tb.edges_arr ∧
      tb'.bin_widths_arr = tb.bin_widths_arr ∧
      tb'.bin_centers_K = tb.bin_centers_K := by
  obtain ⟨sa, ta, sm⟩ := d
  simp only at htb hs
  subst htb
  subst hs
  have hsave : DEMOutput.save ⟨sa, some tb, some s⟩ =
      .ok ⟨s, tb.bin_centers_K, tb.edges_arr⟩ := rfl
  rw [hsave] at hf
  injection hf with hf
  subst hf
  have he : (⟨tb.edges_arr, UnitT.K⟩ : TempBins).edges_arr = tb.edges_arr := by
    simp [TempBins.edges_arr, toKelvin]
  refine ⟨rfl, ⟨⟨tb.edges_arr, UnitT.K⟩, rfl, he, ?_, ?_⟩⟩
  · unfold TempBins.bin_widths_arr
    rw [he]
  · unfold TempBins.bin_centers_K
    rw [he]

/-- Witness for C8: a one-walker, two-bin result with bins in MK. -/
theorem c8_save_load_round_trip_witness :
    demOutSample.save = .ok savedSample ∧
    (DEMOutput.load savedSample).samples = .ok [[5, 6]] := by
  have hf : demOutSample.save = .ok savedSample := by
    show Except.ok _ = _
    norm_num [TempBins.bin_centers_K, TempBins.edges_arr, toKelvin, savedSample]
  exact ⟨hf, (c8_save_load_round_trip demOutSample ⟨[1, 3], UnitT.MK⟩ [[5, 6]]
    savedSample rfl rfl hf).1⟩

/-- Witness for C9 at concrete inputs. -/
theorem c9_log_prob_effects_witness :
    (logProbStateful [1, 2] tbK12 []).2 = [1, 2] ∧
    (logProbSingleVariation 5 0 [1, 2] tbK12 []).2[1]? = some 2 := by
  refine ⟨(c9_log_prob_effects 5 0 [1, 2] tbK12 []).1, ?_⟩
  have h := (c9_log_prob_effects 5 0 [1, 2] tbK12 []).2.2.2.2.1 1 (by norm_num)
  rw [h]
  rfl

end Demcmc
